import Mathlib

/-!
Shallow embedding of the LMS web application (`lms.py`): the relational rows
are structures, the database is a record of lists of rows (in insertion
order, as SQLite returns them), and each request handler's domain logic is a
pure function from the database (plus the request's parameters and the
session's user id) to an outcome and an updated database.  Time is measured
in minutes as a `Nat`; the random OTP value and fresh row ids are explicit
parameters or derived counters.
-/

namespace LMS

/-- Update the first element of a list satisfying `p` by `f`, leaving every
other element unchanged.  Models an SQLAlchemy in-place mutation of the row
returned by `Query.first()`. -/
def updateFirst {α : Type} (p : α → Bool) (f : α → α) : List α → List α
  | [] => []
  | x :: xs => if p x then f x :: xs else x :: updateFirst p f xs

/-- Row of the `User` model (lms.py lines 44-62). -/
structure User where
  id : Nat
  name : String
  email : String
  password_hash : String
  role : String
  created_at : Nat
deriving Repr, DecidableEq

/-- Row of the `Trainer` model (lms.py lines 64-73). -/
structure Trainer where
  id : Nat
  name : String
  email : String
  expertise : String
  profile_pic : Option String
  phone : Option String
  address : Option String
  about : Option String
deriving Repr, DecidableEq

/-- Row of the `Batch` model (lms.py lines 75-82). -/
structure Batch where
  id : Nat
  name : String
  description : Option String
  created_at : Nat
  trainer_id : Option Nat
deriving Repr, DecidableEq

/-- Row of the `Enrollment` model (lms.py lines 84-88). -/
structure Enrollment where
  id : Nat
  user_id : Nat
  batch_id : Nat
  enrolled_at : Nat
deriving Repr, DecidableEq

/-- Row of the `Recording` model (lms.py lines 90-97). -/
structure Recording where
  id : Nat
  filename : String
  original_name : String
  upload_time : Nat
  batch_id : Nat
  notes : Option String
deriving Repr, DecidableEq

/-- Row of the `StudentProgress` model (lms.py lines 99-104). -/
structure StudentProgress where
  id : Nat
  user_id : Nat
  recording_id : Nat
  completed : Bool
  completed_at : Option Nat
deriving Repr, DecidableEq

/-- Row of the `OTP_Token` model (lms.py lines 117-121). -/
structure OTP_Token where
  id : Nat
  user_id : Nat
  token : String
  expires_at : Nat
deriving Repr, DecidableEq

/-- The relational store: one list of rows per table, in insertion order. -/
structure DB where
  users : List User
  trainers : List Trainer
  batches : List Batch
  enrollments : List Enrollment
  recordings : List Recording
  progresses : List StudentProgress
  otps : List OTP_Token
deriving Repr, DecidableEq

/-- A fresh primary key: one larger than every key in use. -/
def freshId (ids : List Nat) : Nat := ids.foldr max 0 + 1

/-- `werkzeug.generate_password_hash`, modelled as an injective tagging: the
claims only ever compare stored credentials. -/
def generate_password_hash (password : String) : String :=
  "pbkdf2:" ++ password

/-- `werkzeug.check_password_hash` for the model above. -/
def check_password_hash (stored password : String) : Bool :=
  stored == generate_password_hash password

/-- `User.set_password` (lms.py lines 58-59). -/
def User.set_password (u : User) (password : String) : User :=
  { u with password_hash := generate_password_hash password }

/-- `User.check_password` (lms.py lines 61-62). -/
def User.check_password (u : User) (password : String) : Bool :=
  check_password_hash u.password_hash password

/-- `current_user()` (lms.py lines 156-160): the account bound to the
session's `user_id`, `none` for an anonymous request. -/
def current_user (s : DB) (sess : Option Nat) : Option User :=
  sess.bind fun uid => s.users.find? (fun u => u.id == uid)

/-- The `batch.trainer` relationship: the trainer row `batch.trainer_id`
points at, if any. -/
def batchTrainer (s : DB) (b : Batch) : Option Trainer :=
  b.trainer_id.bind fun tid => s.trainers.find? (fun t => t.id == tid)

/-- The `batch.recordings` relationship: the batch's recordings in stored
insertion order. -/
def batchRecordings (s : DB) (batch_id : Nat) : List Recording :=
  s.recordings.filter (fun r => r.batch_id == batch_id)

/-! ## Password recovery (lms.py lines 127-151 and 240-279) -/

/-- `generate_and_send_otp` (lms.py lines 127-137): delete every old
`OTP_Token` row of the user, then insert the new token with expiry
`now + 10` minutes.  The random `secrets.token_hex(3).upper()` value is the
`token` parameter; mail delivery has no effect on the store. -/
def generate_and_send_otp (s : DB) (user_id : Nat) (token : String) (now : Nat) : DB :=
  { s with otps :=
      (s.otps.filter (fun o => !(o.user_id == user_id))) ++
      [{ id := freshId (s.otps.map (fun o => o.id)), user_id := user_id,
         token := token, expires_at := now + 10 }] }

/-- Outcome of the `reset_password` POST handler. -/
inductive ResetOutcome
  | invalidOrExpiredCode
  | weakPassword
  | success
deriving Repr, DecidableEq

/-- The POST branch of `reset_password` (lms.py lines 254-277): look up the
user's `OTP_Token` row by token value; fail if absent or past expiry; fail if
the new password is shorter than 6; otherwise store the new credential and
delete the token row. -/
def reset_password (s : DB) (user : User) (token new_password : String) (now : Nat) :
    ResetOutcome × DB :=
  match s.otps.find? (fun o => o.user_id == user.id && o.token == token) with
  | none => (.invalidOrExpiredCode, s)
  | some otp =>
    if otp.expires_at < now then (.invalidOrExpiredCode, s)
    else if new_password.length < 6 then (.weakPassword, s)
    else (.success,
      { s with
        users := updateFirst (fun u => u.id == user.id)
          (fun u => u.set_password new_password) s.users,
        otps := s.otps.eraseP (fun o => o.user_id == user.id && o.token == token) })

/-! ## Registration (lms.py lines 179-204) -/

/-- Outcome of the `register` POST handler. -/
inductive RegisterOutcome
  | duplicateAddress
  | adminAlreadyExists
  | created
deriving Repr, DecidableEq

/-- The POST branch of `register` (lms.py lines 179-202): reject a taken
email, then reject a second admin, otherwise create the account with a
hashed credential. -/
def register (s : DB) (name email password role : String) (now : Nat) :
    RegisterOutcome × DB :=
  let admin_exists := (s.users.find? (fun u => u.role == "admin")).isSome
  if (s.users.find? (fun u => u.email == email)).isSome then
    (.duplicateAddress, s)
  else if role == "admin" && admin_exists then
    (.adminAlreadyExists, s)
  else
    (.created, { s with users := s.users ++
      [{ id := freshId (s.users.map (fun u => u.id)), name := name, email := email,
         password_hash := generate_password_hash password, role := role,
         created_at := now }] })

/-! ## Enrollment (lms.py lines 472-479) -/

/-- Outcome of the enrollment logic in `enroll_student`. -/
inductive EnrollOutcome
  | alreadyEnrolled
  | enrolled
deriving Repr, DecidableEq

/-- The enrollment logic of `enroll_student` (lms.py lines 472-479): if an
`Enrollment` row for the pair exists, report it informationally and change
nothing; otherwise insert the row. -/
def enroll_student (s : DB) (user_id batch_id now : Nat) : EnrollOutcome × DB :=
  if (s.enrollments.find? (fun e => e.user_id == user_id && e.batch_id == batch_id)).isSome then
    (.alreadyEnrolled, s)
  else
    (.enrolled, { s with enrollments := s.enrollments ++
      [{ id := freshId (s.enrollments.map (fun e => e.id)), user_id := user_id,
         batch_id := batch_id, enrolled_at := now }] })

/-- Number of `Enrollment` rows for a (student, batch) pair. -/
def enrollCount (s : DB) (user_id batch_id : Nat) : Nat :=
  (s.enrollments.filter (fun e => e.user_id == user_id && e.batch_id == batch_id)).length

/-! ## Progress aggregation (lms.py lines 339-361 of `dashboard`) -/

/-- The completed count of lms.py line 347: the SQL inner join
`StudentProgress.query.filter_by(user_id, completed=True).join(Recording)
.filter(Recording.batch_id == batch_id).count()`, as a count of matching
(progress, recording) row pairs. -/
def completedCount (s : DB) (user_id batch_id : Nat) : Nat :=
  ((s.progresses.filter (fun p => p.user_id == user_id && p.completed)).flatMap
    (fun p => s.recordings.filter
      (fun r => r.id == p.recording_id && r.batch_id == batch_id))).length

/-- `computeProgress` as the dashboard computes it per enrollment
(lms.py lines 344-349): (completed, total). -/
def computeProgress (s : DB) (user_id batch_id : Nat) : Nat × Nat :=
  (completedCount s user_id batch_id, (batchRecordings s batch_id).length)

/-- The percentage of lms.py line 361:
`(completed / total * 100) if total > 0 else 0`. -/
def progressPercent (completed total : Nat) : ℚ :=
  if 0 < total then (completed : ℚ) / (total : ℚ) * 100 else 0

/-- Whether a completed `StudentProgress` row exists for the pair
(lms.py line 356). -/
def hasCompleted (s : DB) (user_id recording_id : Nat) : Bool :=
  (s.progresses.find? (fun p =>
    p.user_id == user_id && p.recording_id == recording_id && p.completed)).isSome

/-- The next-lesson loop of lms.py lines 355-359: scan the recordings in
order and stop at the first without a completed progress row. -/
def nextIncompleteLoop (s : DB) (user_id : Nat) : List Recording → Option Recording
  | [] => none
  | r :: rs =>
    if hasCompleted s user_id r.id then nextIncompleteLoop s user_id rs
    else some r

/-- `nextIncompleteLesson`: the loop applied to the batch's recordings in
stored insertion order. -/
def nextIncompleteLesson (s : DB) (user_id batch_id : Nat) : Option Recording :=
  nextIncompleteLoop s user_id (batchRecordings s batch_id)

/-! ## Trainer authorization (lms.py lines 647-659 and 682-692) -/

/-- `is_assigned_trainer` of lms.py lines 654 and 687:
`batch.trainer and batch.trainer.email == user.email`. -/
def is_assigned_trainer (s : DB) (b : Batch) (u : User) : Bool :=
  match batchTrainer s b with
  | some t => t.email == u.email
  | none => false

/-- The authorization decision of `upload` (lms.py line 657): the actor must
have role trainer and be the batch's assigned trainer by email match. -/
def can_upload_delete (s : DB) (u : User) (b : Batch) : Bool :=
  u.role == "trainer" && is_assigned_trainer s b u

/-- The authorization decision of `delete_recording` (lms.py lines 684-690):
the recording's batch is resolved first, then the same check as `upload`. -/
def delete_recording_allowed (s : DB) (u : User) (r : Recording) : Bool :=
  match s.batches.find? (fun b => b.id == r.batch_id) with
  | some b => can_upload_delete s u b
  | none => false

/-! ## Download (lms.py lines 678-680) -/

/-- A file of the blob store under `UPLOAD_ROOT / batch_id / filename`. -/
structure StoredFile where
  batch_id : Nat
  filename : String
  content : String
deriving Repr, DecidableEq

/-- Response of the `download` route. -/
inductive DownloadResult
  | file (content : String)
  | notFound
deriving Repr, DecidableEq

set_option linter.unusedVariables false in
/-- `download` (lms.py lines 678-680): `send_from_directory(UPLOAD_ROOT /
str(batch_id), filename)`.  Every route receives the request's session;
this one never consults it. -/
def download (files : List StoredFile) (sess : Option Nat) (batch_id : Nat)
    (filename : String) : DownloadResult :=
  match files.find? (fun f => f.batch_id == batch_id && f.filename == filename) with
  | some f => .file f.content
  | none => .notFound

/-! ## Security update (lms.py lines 804-845) -/

/-- Outcome of the `update_security` POST handler. -/
inductive SecurityOutcome
  | notLoggedIn
  | wrongPassword
  | weakPassword
  | emailInUse
  | ok
deriving Repr, DecidableEq

/-- Steps 3 and commit of `update_security` (lms.py lines 826-845): `user0`
is the row as loaded (the old email and role), `u1` the in-memory row after
the optional password change.  On an email change the `Trainer` lookup runs
after `user.email` is already overwritten, so it searches for the new
address. -/
def update_security_email (s : DB) (user0 u1 : User) (new_email : Option String) :
    SecurityOutcome × DB :=
  match new_email with
  | some ne =>
    if ne != user0.email then
      if (s.users.find? (fun v => v.email == ne && !(v.id == user0.id))).isSome then
        (.emailInUse, s)
      else
        let u2 : User := { u1 with email := ne }
        let trainers2 :=
          if user0.role == "trainer" then
            updateFirst (fun t => t.email == u2.email)
              (fun t => { t with email := ne }) s.trainers
          else s.trainers
        (.ok, { s with
          users := updateFirst (fun v => v.id == user0.id) (fun _ => u2) s.users,
          trainers := trainers2 })
    else
      (.ok, { s with users := updateFirst (fun v => v.id == user0.id) (fun _ => u1) s.users })
  | none =>
    (.ok, { s with users := updateFirst (fun v => v.id == user0.id) (fun _ => u1) s.users })

/-- `update_security` (lms.py lines 804-845): verify the current password,
optionally change the password (too-short aborts before any commit),
optionally change the email. -/
def update_security (s : DB) (sess : Option Nat) (current_password : String)
    (new_password new_email : Option String) : SecurityOutcome × DB :=
  match current_user s sess with
  | none => (.notLoggedIn, s)
  | some user =>
    if user.check_password current_password = false then (.wrongPassword, s)
    else
      match new_password with
      | some np =>
        if np.length < 6 then (.weakPassword, s)
        else update_security_email s user (user.set_password np) new_email
      | none => update_security_email s user user new_email

/-! ## Progress update API (lms.py lines 908-926) -/

/-- Outcome of the `update_progress` JSON endpoint. -/
inductive ProgressOutcome
  | unauthorized
  | success
deriving Repr, DecidableEq

/-- `update_progress` (lms.py lines 908-926): only a logged-in student may
call it; the supplied `recording_id` is never validated.  The row for
(user, recording) is created if absent, then marked completed with a fresh
timestamp. -/
def update_progress (s : DB) (sess : Option Nat) (recording_id now : Nat) :
    ProgressOutcome × DB :=
  match current_user s sess with
  | none => (.unauthorized, s)
  | some user =>
    if !(user.role == "student") then (.unauthorized, s)
    else
      match s.progresses.find? (fun q =>
          q.user_id == user.id && q.recording_id == recording_id) with
      | some _ =>
        let ps2 :=
          updateFirst (fun q => q.user_id == user.id && q.recording_id == recording_id)
            (fun q => { q with completed := true, completed_at := some now })
            s.progresses
        (.success, { s with progresses := ps2 })
      | none =>
        let row : StudentProgress :=
          { id := freshId (s.progresses.map (fun q => q.id)), user_id := user.id,
            recording_id := recording_id, completed := true,
            completed_at := some now }
        (.success, { s with progresses := s.progresses ++ [row] })

/-- Number of `OTP_Token` rows held for a user. -/
def otpCount (s : DB) (user_id : Nat) : Nat :=
  (s.otps.filter (fun o => o.user_id == user_id)).length

/-- At most one `OTP_Token` row per account, stated over the rows present so
that it is decidable on a concrete store. -/
def atMostOneOtpPerUser (l : List OTP_Token) : Prop :=
  ∀ o ∈ l, (l.filter (fun x => x.user_id == o.user_id)).length ≤ 1

/-! ## General lemmas about the row-update helpers -/

theorem updateFirst_eq_of_fix {α : Type} (p : α → Bool) (f : α → α) (l : List α)
    (h : ∀ x, p x = true → f x = x) : updateFirst p f l = l := by
  induction l with
  | nil => rfl
  | cons x xs ih =>
    simp only [updateFirst]
    cases hx : p x with
    | true => simp [hx, h x hx, ih]
    | false => simp [hx, ih]

theorem find?_updateFirst {α : Type} (p : α → Bool) (f : α → α) (l : List α)
    (h : ∀ x, p x = true → p (f x) = true) :
    (updateFirst p f l).find? p = (l.find? p).map f := by
  induction l with
  | nil => rfl
  | cons x xs ih =>
    simp only [updateFirst]
    cases hx : p x with
    | true =>
      simp only [hx, if_true]
      rw [List.find?_cons_of_pos _ (h x hx), List.find?_cons_of_pos _ hx]
      rfl
    | false =>
      simp only [hx, Bool.false_eq_true, if_false]
      rw [List.find?_cons_of_neg _ (by simp [hx]), List.find?_cons_of_neg _ (by simp [hx]), ih]

theorem length_filter_le_of_imp {α : Type} (p q : α → Bool) (l : List α)
    (h : ∀ x, p x = true → q x = true) :
    (l.filter p).length ≤ (l.filter q).length := by
  induction l with
  | nil => simp
  | cons x xs ih =>
    cases hx : p x with
    | true =>
      simp only [List.filter_cons, hx, h x hx, if_true, List.length_cons]
      omega
    | false =>
      simp only [List.filter_cons, hx, Bool.false_eq_true, if_false]
      split
      · simp only [List.length_cons]
        omega
      · exact ih

theorem find?_eraseP_of_unique {α : Type} (q : α → Bool) (l : List α)
    (h : (l.filter q).length ≤ 1) : (l.eraseP q).find? q = none := by
  induction l with
  | nil => rfl
  | cons x xs ih =>
    cases hx : q x with
    | true =>
      rw [List.eraseP_cons_of_pos hx]
      rw [List.find?_eq_none]
      intro y hy hqy
      have hnil : xs.filter q = [] := by
        rw [List.filter_cons, if_pos hx] at h
        simp only [List.length_cons] at h
        exact List.length_eq_zero.mp (by omega)
      exact (List.filter_eq_nil_iff.mp hnil) y hy hqy
    | false =>
      rw [List.eraseP_cons_of_neg (by simp [hx])]
      rw [List.find?_cons_of_neg _ (by simp [hx])]
      apply ih
      rw [List.filter_cons, if_neg (by simp [hx])] at h
      exact h

/-! ## C1: trainer authorization is an address (email) match -/

/-- C1: a trainer actor may upload or delete a recording in a batch exactly
when the batch's assigned trainer profile exists and its email equals the
actor's email; whenever the assigned profile's email differs from the
actor's, the decision is deny. -/
theorem trainer_auth_address_match (s : DB) (u : User) (b : Batch) (r : Recording) :
    (can_upload_delete s u b = true ↔
      (u.role = "trainer" ∧ ∃ t, batchTrainer s b = some t ∧ t.email = u.email)) ∧
    (∀ t, batchTrainer s b = some t → t.email ≠ u.email → can_upload_delete s u b = false) ∧
    (delete_recording_allowed s u r = true ↔
      (u.role = "trainer" ∧
        ∃ b2, s.batches.find? (fun x => x.id == r.batch_id) = some b2 ∧
          ∃ t, batchTrainer s b2 = some t ∧ t.email = u.email)) := by
  have hmain : ∀ b2 : Batch, can_upload_delete s u b2 = true ↔
      (u.role = "trainer" ∧ ∃ t, batchTrainer s b2 = some t ∧ t.email = u.email) := by
    intro b2
    unfold can_upload_delete is_assigned_trainer
    cases hbt : batchTrainer s b2 with
    | none => simp
    | some t => simp [hbt]
  refine ⟨hmain b, ?_, ?_⟩
  · intro t hbt hne
    unfold can_upload_delete is_assigned_trainer
    rw [hbt]
    simp [hne]
  · unfold delete_recording_allowed
    cases hfb : s.batches.find? (fun x => x.id == r.batch_id) with
    | none => simp
    | some b2 => simp [hmain b2]

/-! ## C2: at most one active recovery code per account, last code wins -/

/-- C2: issuing a recovery code deletes all prior codes of the account, so
after a second issue the account holds exactly one code, the one-per-account
invariant is preserved, and consuming the first code fails with
InvalidOrExpiredCode (leaving the store unchanged) even before its natural
expiry. -/
theorem otp_last_code_wins (s : DB) (user : User) (t1 t2 np : String) (n1 n2 now : Nat)
    (hne : t1 ≠ t2) (hInv : atMostOneOtpPerUser s.otps) :
    otpCount (generate_and_send_otp (generate_and_send_otp s user.id t1 n1) user.id t2 n2)
        user.id = 1 ∧
    atMostOneOtpPerUser
      (generate_and_send_otp (generate_and_send_otp s user.id t1 n1) user.id t2 n2).otps ∧
    reset_password (generate_and_send_otp (generate_and_send_otp s user.id t1 n1) user.id t2 n2)
        user t1 np now =
      (ResetOutcome.invalidOrExpiredCode,
        generate_and_send_otp (generate_and_send_otp s user.id t1 n1) user.id t2 n2) := by
  obtain ⟨row, hrowu, hrowt, hotps⟩ : ∃ row : OTP_Token, row.user_id = user.id ∧
      row.token = t2 ∧
      (generate_and_send_otp (generate_and_send_otp s user.id t1 n1) user.id t2 n2).otps =
      (s.otps.filter (fun o => !(o.user_id == user.id))) ++ [row] := by
    refine ⟨⟨freshId ((generate_and_send_otp s user.id t1 n1).otps.map (fun o => o.id)),
      user.id, t2, n2 + 10⟩, rfl, rfl, ?_⟩
    simp [generate_and_send_otp, List.filter_append, List.filter_filter]
  have hFnil : ∀ k : Nat, k = user.id →
      (s.otps.filter (fun o => !(o.user_id == user.id))).filter
        (fun x => x.user_id == k) = [] := by
    intro k hk
    subst hk
    rw [List.filter_eq_nil_iff]
    intro a ha
    have := List.of_mem_filter ha
    simp only [Bool.not_eq_true'] at this
    simp [this]
  refine ⟨?_, ?_, ?_⟩
  · simp only [otpCount, hotps, List.filter_append, hFnil user.id rfl]
    simp [hrowu]
  · intro o ho
    rw [hotps] at ho ⊢
    by_cases hk : o.user_id = user.id
    · simp only [hk, List.filter_append, hFnil user.id rfl, List.nil_append]
      simp [hrowu]
    · have hoF : o ∈ s.otps.filter (fun o2 => !(o2.user_id == user.id)) := by
        rcases List.mem_append.mp ho with h1 | h1
        · exact h1
        · have h2 := congrArg OTP_Token.user_id (List.mem_singleton.mp h1)
          rw [hrowu] at h2
          exact absurd h2 hk
      have hrow : ([row].filter (fun x => x.user_id == o.user_id)) = [] := by
        have hne2 : row.user_id ≠ o.user_id := by
          rw [hrowu]
          exact fun h => hk h.symm
        simp [hne2]
      rw [List.filter_append, hrow, List.append_nil]
      have hsub : List.Sublist
          ((s.otps.filter (fun o2 => !(o2.user_id == user.id))).filter
            (fun x => x.user_id == o.user_id))
          (s.otps.filter (fun x => x.user_id == o.user_id)) :=
        List.Sublist.filter _ (List.filter_sublist _)
      have homem : o ∈ s.otps := List.mem_of_mem_filter hoF
      exact le_trans (List.Sublist.length_le hsub) (hInv o homem)
  · have hfind : ((s.otps.filter (fun o => !(o.user_id == user.id))) ++ [row]).find?
        (fun o => o.user_id == user.id && o.token == t1) = none := by
      rw [List.find?_eq_none]
      intro x hx
      rcases List.mem_append.mp hx with hxF | hxR
      · have hval := List.of_mem_filter hxF
        simp only [Bool.not_eq_true'] at hval
        simp [hval]
      · have hx2 : x = row := List.mem_singleton.mp hxR
        subst hx2
        have ht : t2 ≠ t1 := fun h => hne h.symm
        simp [hrowt, ht]
    unfold reset_password
    rw [hotps, hfind]

/-! ## C3: the consumeReset contract -/

/-- C3: `reset_password` fails with InvalidOrExpiredCode when no stored code
of the account matches the token or when now is past the stored expiry,
fails with WeakPassword when the new password is shorter than 6; otherwise
it stores the new credential and deletes the code, so a consumed code cannot
be consumed a second time; on either failure the store is unchanged. -/
theorem reset_password_contract (s : DB) (user : User) (token np : String) (now : Nat) :
    (s.otps.find? (fun o => o.user_id == user.id && o.token == token) = none →
      reset_password s user token np now = (ResetOutcome.invalidOrExpiredCode, s)) ∧
    (∀ otp, s.otps.find? (fun o => o.user_id == user.id && o.token == token) = some otp →
      otp.expires_at < now →
      reset_password s user token np now = (ResetOutcome.invalidOrExpiredCode, s)) ∧
    (∀ otp, s.otps.find? (fun o => o.user_id == user.id && o.token == token) = some otp →
      ¬ otp.expires_at < now → np.length < 6 →
      reset_password s user token np now = (ResetOutcome.weakPassword, s)) ∧
    (∀ otp, s.otps.find? (fun o => o.user_id == user.id && o.token == token) = some otp →
      ¬ otp.expires_at < now → ¬ np.length < 6 →
      (reset_password s user token np now).1 = ResetOutcome.success ∧
      ((reset_password s user token np now).2.users.find? (fun u => u.id == user.id)).map
          (fun u => u.password_hash) =
        (s.users.find? (fun u => u.id == user.id)).map (fun _ => generate_password_hash np) ∧
      (atMostOneOtpPerUser s.otps →
        ∀ np2 now2,
          reset_password (reset_password s user token np now).2 user token np2 now2 =
          (ResetOutcome.invalidOrExpiredCode, (reset_password s user token np now).2))) := by
  refine ⟨?_, ?_, ?_, ?_⟩
  · intro h
    unfold reset_password
    rw [h]
  · intro otp h hexp
    unfold reset_password
    rw [h]
    simp [hexp]
  · intro otp h hexp hweak
    unfold reset_password
    rw [h]
    simp [hexp, hweak]
  · intro otp h hexp hstrong
    have hred : reset_password s user token np now =
        (ResetOutcome.success,
          { s with
            users := updateFirst (fun u => u.id == user.id)
              (fun u => u.set_password np) s.users,
            otps := s.otps.eraseP (fun o => o.user_id == user.id && o.token == token) }) := by
      unfold reset_password
      rw [h]
      simp [hexp, hstrong]
    refine ⟨by rw [hred], ?_, ?_⟩
    · rw [hred]
      have hpres : ∀ x : User, (x.id == user.id) = true →
          ((x.set_password np).id == user.id) = true := by
        intro x hx
        simpa [User.set_password] using hx
      have := find?_updateFirst (fun u => u.id == user.id)
        (fun u => u.set_password np) s.users hpres
      simp only [this]
      cases s.users.find? (fun u => u.id == user.id) with
      | none => rfl
      | some u => simp [User.set_password]
    · intro hInv np2 now2
      have hkey : otp.user_id = user.id := by
        have hfs := List.find?_some h
        simp only [Bool.and_eq_true, beq_iff_eq] at hfs
        exact hfs.1
      have hle : (s.otps.filter (fun o => o.user_id == user.id && o.token == token)).length ≤ 1 := by
        have himp : ∀ x : OTP_Token, (x.user_id == user.id && x.token == token) = true →
            (x.user_id == user.id) = true := by
          intro x hx
          simp only [Bool.and_eq_true] at hx
          exact hx.1
        have h1 := length_filter_le_of_imp _ (fun x => x.user_id == user.id) s.otps himp
        have h2 := hInv otp (List.mem_of_find?_eq_some h)
        rw [hkey] at h2
        exact le_trans h1 h2
      have hnone := find?_eraseP_of_unique
        (fun o => o.user_id == user.id && o.token == token) s.otps hle
      rw [hred]
      unfold reset_password
      simp only []
      rw [hnone]

/-! ## C4: enrollment is idempotent -/

theorem find?_isSome_of_count_pos {α : Type} (p : α → Bool) (l : List α)
    (h : 0 < (l.filter p).length) : (l.find? p).isSome = true := by
  rw [List.find?_isSome]
  have hne : l.filter p ≠ [] := by
    intro hnil
    rw [hnil] at h
    simp at h
  obtain ⟨x, hx⟩ := List.exists_mem_of_ne_nil _ hne
  exact ⟨x, List.mem_of_mem_filter hx, List.of_mem_filter hx⟩

theorem count_pos_of_find?_eq_some {α : Type} (p : α → Bool) (l : List α) (x : α)
    (h : l.find? p = some x) : 0 < (l.filter p).length := by
  have hm := List.mem_of_find?_eq_some h
  have hp := List.find?_some h
  have hmem : x ∈ l.filter p := List.mem_filter.mpr ⟨hm, hp⟩
  exact List.length_pos_of_mem hmem

/-- C4: for every (student, batch) pair whose row count respects the
handler-enforced uniqueness invariant, calling enroll twice leaves exactly
one Enrollment row for the pair, and the second call reports the
informational AlreadyEnrolled outcome and leaves the store unchanged. -/
theorem enroll_idempotent (s : DB) (uid bid n1 n2 : Nat)
    (hInv : enrollCount s uid bid ≤ 1) :
    enrollCount (enroll_student (enroll_student s uid bid n1).2 uid bid n2).2 uid bid = 1 ∧
    (enroll_student (enroll_student s uid bid n1).2 uid bid n2).1 =
      EnrollOutcome.alreadyEnrolled ∧
    (enroll_student (enroll_student s uid bid n1).2 uid bid n2).2 =
      (enroll_student s uid bid n1).2 := by
  have key : ∀ s0 : DB, enrollCount s0 uid bid = 1 →
      enroll_student s0 uid bid n2 = (EnrollOutcome.alreadyEnrolled, s0) := by
    intro s0 h1
    have hpos : 0 < (s0.enrollments.filter
        (fun e => e.user_id == uid && e.batch_id == bid)).length := by
      unfold enrollCount at h1
      omega
    have hsome := find?_isSome_of_count_pos _ _ hpos
    unfold enroll_student
    rw [if_pos hsome]
  have h1 : enrollCount (enroll_student s uid bid n1).2 uid bid = 1 := by
    cases hf : s.enrollments.find? (fun e => e.user_id == uid && e.batch_id == bid) with
    | none =>
      have hnil : s.enrollments.filter (fun e => e.user_id == uid && e.batch_id == bid) = [] := by
        rw [List.filter_eq_nil_iff]
        exact List.find?_eq_none.mp hf
      unfold enroll_student
      rw [hf]
      simp [enrollCount, List.filter_append, hnil]
    | some e =>
      have hpos := count_pos_of_find?_eq_some _ _ _ hf
      have heq : enrollCount s uid bid = 1 := le_antisymm hInv hpos
      unfold enroll_student
      rw [hf]
      simpa using heq
  refine ⟨?_, ?_, ?_⟩
  · rw [key _ h1]
    exact h1
  · rw [key _ h1]
  · rw [key _ h1]

/-! ## C5: progress aggregation is total-count / completed-count, safe at zero -/

/-- C5: the dashboard's per-batch progress pair counts the batch's
recordings as its total and the student's completed progress rows joined to
the batch's recordings as its completed count; a batch with zero recordings
yields (0, 0) and a defined 0 percentage, never a division by zero. -/
theorem computeProgress_total_and_empty (s : DB) (uid bid : Nat) :
    (computeProgress s uid bid).2 = (batchRecordings s bid).length ∧
    (computeProgress s uid bid).1 = completedCount s uid bid ∧
    (batchRecordings s bid = [] →
      computeProgress s uid bid = (0, 0) ∧
      progressPercent (computeProgress s uid bid).1 (computeProgress s uid bid).2 = 0) := by
  refine ⟨rfl, rfl, ?_⟩
  intro h
  have hnone : ∀ r ∈ s.recordings, ¬ (r.batch_id == bid) = true := by
    unfold batchRecordings at h
    exact List.filter_eq_nil_iff.mp h
  have hcc : completedCount s uid bid = 0 := by
    unfold completedCount
    have hflat : ((s.progresses.filter (fun p => p.user_id == uid && p.completed)).flatMap
        (fun p => s.recordings.filter
          (fun r => r.id == p.recording_id && r.batch_id == bid))) = [] := by
      rw [List.flatMap_eq_nil_iff]
      intro p _
      rw [List.filter_eq_nil_iff]
      intro r hr hcontra
      simp only [Bool.and_eq_true] at hcontra
      exact hnone r hr hcontra.2
    rw [hflat]
    rfl
  have htot : (batchRecordings s bid).length = 0 := by
    rw [h]
    rfl
  have hpair : computeProgress s uid bid = (0, 0) := by
    unfold computeProgress
    rw [hcc, htot]
  refine ⟨hpair, ?_⟩
  rw [hpair]
  simp [progressPercent]

/-! ## C6: next incomplete lesson is the first in stored order -/

theorem nextIncompleteLoop_none_iff (s : DB) (uid : Nat) (l : List Recording) :
    nextIncompleteLoop s uid l = none ↔ ∀ r ∈ l, hasCompleted s uid r.id = true := by
  induction l with
  | nil => simp [nextIncompleteLoop]
  | cons x xs ih =>
    simp only [nextIncompleteLoop]
    cases hx : hasCompleted s uid x.id with
    | true =>
      rw [if_pos rfl, ih]
      constructor
      · intro hall r hr
        rcases List.mem_cons.mp hr with h1 | h1
        · rw [h1]
          exact hx
        · exact hall r h1
      · intro hall r hr
        exact hall r (List.mem_cons_of_mem _ hr)
    | false =>
      rw [if_neg (by simp)]
      simp only [reduceCtorEq, false_iff]
      intro hall
      exact absurd (hall x (List.mem_cons_self _ _)) (by simp [hx])

theorem nextIncompleteLoop_some (s : DB) (uid : Nat) (l : List Recording) (r : Recording) :
    nextIncompleteLoop s uid l = some r →
    hasCompleted s uid r.id = false ∧
    ∃ l1 l2, l = l1 ++ r :: l2 ∧ ∀ x ∈ l1, hasCompleted s uid x.id = true := by
  induction l with
  | nil =>
    intro h
    simp [nextIncompleteLoop] at h
  | cons x xs ih =>
    intro h
    simp only [nextIncompleteLoop] at h
    cases hx : hasCompleted s uid x.id with
    | true =>
      obtain ⟨hr, l1, l2, heq, hall⟩ := ih (by rwa [if_pos hx] at h)
      refine ⟨hr, x :: l1, l2, by rw [heq]; rfl, ?_⟩
      intro y hy
      rcases List.mem_cons.mp hy with h1 | h1
      · rw [h1]
        exact hx
      · exact hall y h1
    | false =>
      rw [if_neg (by simp [hx])] at h
      have hxr := Option.some.inj h
      subst hxr
      exact ⟨hx, [], xs, rfl, by simp⟩

/-- C6: `nextIncompleteLesson` scans the batch's recordings in their stored
insertion order: it returns none exactly when every recording of the batch
is completed by the student (in particular when the batch is empty), and a
returned recording is the first incomplete one — itself incomplete, with
every recording before it in the stored order completed. -/
theorem nextIncompleteLesson_first_incomplete (s : DB) (uid bid : Nat) :
    (nextIncompleteLesson s uid bid = none ↔
      ∀ r ∈ batchRecordings s bid, hasCompleted s uid r.id = true) ∧
    (∀ r, nextIncompleteLesson s uid bid = some r →
      hasCompleted s uid r.id = false ∧
      ∃ l1 l2, batchRecordings s bid = l1 ++ r :: l2 ∧
        ∀ x ∈ l1, hasCompleted s uid x.id = true) :=
  ⟨nextIncompleteLoop_none_iff s uid (batchRecordings s bid),
   fun r h => nextIncompleteLoop_some s uid (batchRecordings s bid) r h⟩

/-! ## C7: single-admin registration -/

/-- Number of admin accounts in the store. -/
def adminCount (s : DB) : Nat :=
  (s.users.filter (fun u => u.role == "admin")).length

/-- A store holding one admin account at address a@x. -/
def adminDB : DB :=
  { users := [⟨1, "A", "a@x", generate_password_hash "p", "admin", 0⟩],
    trainers := [], batches := [], enrollments := [], recordings := [],
    progresses := [], otps := [] }

/-- C7 counterexample: with an admin already registered at address a@x,
registering role admin at that same address fails with DuplicateAddress
rather than AdminAlreadyExists — the duplicate-address check runs first, so
the claim's "whenever" does not hold as stated. -/
theorem register_admin_counterexample :
    (register adminDB "B" "a@x" "secret" "admin" 1).1 = RegisterOutcome.duplicateAddress ∧
    ¬ (register adminDB "B" "a@x" "secret" "admin" 1).1 =
        RegisterOutcome.adminAlreadyExists := by
  decide

/-- C7 amended: when the requested address is not already registered,
requesting role admin fails with AdminAlreadyExists exactly if an admin
account already exists, and otherwise creates the admin account; and no
registration ever raises the number of admin accounts above one. -/
theorem register_admin_amended (s : DB) (name email password : String) (now : Nat) :
    (s.users.find? (fun u => u.email == email) = none →
      (s.users.find? (fun u => u.role == "admin")).isSome = true →
      register s name email password "admin" now = (RegisterOutcome.adminAlreadyExists, s)) ∧
    (s.users.find? (fun u => u.email == email) = none →
      s.users.find? (fun u => u.role == "admin") = none →
      (register s name email password "admin" now).1 = RegisterOutcome.created ∧
      ∃ u, (register s name email password "admin" now).2.users = s.users ++ [u] ∧
        u.role = "admin" ∧ u.email = email) ∧
    (∀ role, adminCount s ≤ 1 → adminCount (register s name email password role now).2 ≤ 1) := by
  refine ⟨?_, ?_, ?_⟩
  · intro h1 h2
    unfold register
    simp [h1, h2]
  · intro h1 h2
    unfold register
    simp [h1, h2]
  · intro role hle
    unfold register
    by_cases hdup : (s.users.find? (fun u => u.email == email)).isSome = true
    · rw [if_pos hdup]
      exact hle
    · rw [if_neg hdup]
      by_cases hadm : (role == "admin" &&
          (s.users.find? (fun u => u.role == "admin")).isSome) = true
      · rw [if_pos hadm]
        exact hle
      · rw [if_neg hadm]
        simp only [adminCount, List.filter_append, List.length_append]
        cases hrole : (role == "admin") with
        | false =>
          have hnil : (List.filter (fun u => u.role == "admin")
              [({ id := freshId (s.users.map (fun u => u.id)), name := name, email := email,
                  password_hash := generate_password_hash password, role := role,
                  created_at := now } : User)]) = [] := by
            simp [hrole]
          rw [hnil]
          simpa using hle
        | true =>
          have hnoadm : s.users.find? (fun u => u.role == "admin") = none := by
            rcases hfa : s.users.find? (fun u => u.role == "admin") with _ | v
            · exact hfa
            · exact absurd (by simp [hrole, hfa]) hadm
          have hnil : s.users.filter (fun u => u.role == "admin") = [] := by
            rw [List.filter_eq_nil_iff]
            exact List.find?_eq_none.mp hnoadm
          rw [hnil]
          simp [hrole]

/-! ## C8: download is unauthenticated -/

/-- C8: the download route performs no authentication or authorization: its
response is the same for every session (anonymous, unenrolled student,
non-assigned trainer, assigned trainer alike), and an existing stored file's
content is returned to every actor identically. -/
theorem download_ignores_session (files : List StoredFile) (bid : Nat) (fn : String)
    (sess1 sess2 : Option Nat) :
    download files sess1 bid fn = download files sess2 bid fn ∧
    (∀ f, files.find? (fun g => g.batch_id == bid && g.filename == fn) = some f →
      ∀ sess, download files sess bid fn = DownloadResult.file f.content) := by
  refine ⟨rfl, ?_⟩
  intro f hf sess
  unfold download
  rw [hf]

/-! ## C9: email change leaves the trainer profile behind -/

/-- C9: when a trainer account changes its email through the security-update
operation, the account row gets the new email but the trainer table is left
entirely unchanged — the profile lookup runs with the already-updated new
address — so the paired profile's address diverges from the account's. -/
theorem update_security_trainer_email_divergence (s : DB) (sess : Option Nat)
    (user : User) (cp ne : String)
    (hu : current_user s sess = some user)
    (hrole : user.role = "trainer")
    (hcp : user.check_password cp = true)
    (hne : ne ≠ user.email)
    (hfree : s.users.find? (fun v => v.email == ne && !(v.id == user.id)) = none) :
    (update_security s sess cp none (some ne)).1 = SecurityOutcome.ok ∧
    (update_security s sess cp none (some ne)).2.trainers = s.trainers ∧
    ((update_security s sess cp none (some ne)).2.users.find?
        (fun v => v.id == user.id)).map (fun v => v.email) = some ne ∧
    (∀ t ∈ s.trainers, t.email = user.email → t.email ≠ ne) := by
  have hred : update_security s sess cp none (some ne) =
      update_security_email s user user (some ne) := by
    unfold update_security
    rw [hu]
    simp [hcp]
  have hred2 : update_security_email s user user (some ne) =
      (SecurityOutcome.ok,
        { s with
          users := updateFirst (fun v => v.id == user.id)
            (fun _ => { user with email := ne }) s.users,
          trainers := updateFirst (fun t => t.email == ne)
            (fun t => { t with email := ne }) s.trainers }) := by
    unfold update_security_email
    have hbne : (ne != user.email) = true := by simp [hne]
    simp only [hbne]
    rw [if_pos trivial, hfree]
    simp [hrole]
  have htr : updateFirst (fun t => t.email == ne) (fun t => { t with email := ne }) s.trainers
      = s.trainers := by
    apply updateFirst_eq_of_fix
    intro t ht
    have hte : t.email = ne := by simpa using ht
    cases t
    simp_all
  have hfindu : s.users.find? (fun v => v.id == user.id) = some user := by
    obtain ⟨uid, hsess, hfu⟩ : ∃ uid, sess = some uid ∧
        s.users.find? (fun v => v.id == uid) = some user := by
      unfold current_user at hu
      cases sess with
      | none => simp at hu
      | some uid => exact ⟨uid, rfl, by simpa using hu⟩
    have hid : user.id = uid := by
      have := List.find?_some hfu
      simpa using this
    subst hid
    exact hfu
  have hfind2 : (updateFirst (fun v => v.id == user.id)
      (fun _ => { user with email := ne }) s.users).find? (fun v => v.id == user.id)
      = some { user with email := ne } := by
    rw [find?_updateFirst _ _ _ (by intro x hx; simp), hfindu]
    rfl
  refine ⟨by rw [hred, hred2], by rw [hred, hred2]; exact htr, ?_, ?_⟩
  · rw [hred, hred2]
    dsimp only
    rw [hfind2]
    rfl
  · intro t htmem hte
    rw [hte]
    exact fun h => hne h.symm

/-! ## C10: progress update checks only the student role -/

/-- C10: the progress-update endpoint enforces only that the caller is a
logged-in student: for every recording id whatsoever (enrolled or not, even
one matching no recording) it reports success and leaves a completed
progress row for the pair with the fresh timestamp; an anonymous caller or
one whose role is not student gets Unauthorized with the store unchanged. -/
theorem update_progress_contract (s : DB) (sess : Option Nat) (rid now : Nat) :
    (∀ user, current_user s sess = some user → user.role = "student" →
      (update_progress s sess rid now).1 = ProgressOutcome.success ∧
      ∃ q ∈ (update_progress s sess rid now).2.progresses,
        q.user_id = user.id ∧ q.recording_id = rid ∧ q.completed = true ∧
        q.completed_at = some now) ∧
    (current_user s sess = none →
      update_progress s sess rid now = (ProgressOutcome.unauthorized, s)) ∧
    (∀ user, current_user s sess = some user → user.role ≠ "student" →
      update_progress s sess rid now = (ProgressOutcome.unauthorized, s)) := by
  refine ⟨?_, ?_, ?_⟩
  · intro user h hrole
    unfold update_progress
    simp only [h]
    rw [if_neg (by simp [hrole])]
    rcases hfq : s.progresses.find?
        (fun q => q.user_id == user.id && q.recording_id == rid) with _ | q0
    · simp only [hfq]
      refine ⟨trivial, ⟨{ id := freshId (s.progresses.map (fun q => q.id)), user_id := user.id, recording_id := rid, completed := true, completed_at := some now }, ?_, rfl, rfl, rfl, rfl⟩⟩
      exact List.mem_append_right _ (by simp)
    · simp only [hfq]
      have hpres : ∀ x : StudentProgress,
          (x.user_id == user.id && x.recording_id == rid) = true →
          ((({ x with completed := true, completed_at := some now } : StudentProgress)).user_id
              == user.id &&
            (({ x with completed := true, completed_at := some now } : StudentProgress)).recording_id
              == rid) = true := by
        intro x hx
        simpa using hx
      have hf2 := find?_updateFirst (fun q => q.user_id == user.id && q.recording_id == rid)
        (fun q => { q with completed := true, completed_at := some now }) s.progresses hpres
      rw [hfq] at hf2
      have hmem := List.mem_of_find?_eq_some hf2
      have hpq := List.find?_some hfq
      simp only [Bool.and_eq_true, beq_iff_eq] at hpq
      exact ⟨trivial, ⟨{ q0 with completed := true, completed_at := some now }, hmem,
        hpq.1, hpq.2, rfl, rfl⟩⟩
  · intro h
    unfold update_progress
    rw [h]
  · intro user h hrole
    unfold update_progress
    simp only [h]
    rw [if_pos (by simp [hrole])]

/-! ## Concrete witnesses -/

/-- A store holding a single student account and nothing else. -/
def dbW2 : DB :=
  { users := [⟨1, "S", "s@x", generate_password_hash "p", "student", 0⟩],
    trainers := [], batches := [], enrollments := [], recordings := [],
    progresses := [], otps := [] }

/-- The single account of `dbW2`. -/
def userW2 : User := ⟨1, "S", "s@x", generate_password_hash "p", "student", 0⟩

/-- C2 witness: two codes issued to the same fresh account at concrete
inputs — one code remains, the invariant holds, and consuming the first
fails. -/
theorem otp_last_code_wins_witness :
    otpCount (generate_and_send_otp (generate_and_send_otp dbW2 userW2.id "AAAAAA" 0)
        userW2.id "BBBBBB" 0) userW2.id = 1 ∧
    atMostOneOtpPerUser
      (generate_and_send_otp (generate_and_send_otp dbW2 userW2.id "AAAAAA" 0)
        userW2.id "BBBBBB" 0).otps ∧
    reset_password (generate_and_send_otp (generate_and_send_otp dbW2 userW2.id "AAAAAA" 0)
        userW2.id "BBBBBB" 0) userW2 "AAAAAA" "newpass" 5 =
      (ResetOutcome.invalidOrExpiredCode,
        generate_and_send_otp (generate_and_send_otp dbW2 userW2.id "AAAAAA" 0)
          userW2.id "BBBBBB" 0) :=
  otp_last_code_wins dbW2 userW2 "AAAAAA" "BBBBBB" "newpass" 0 0 5 (by decide)
    (by intro o ho; simp [dbW2] at ho)

/-- An empty store. -/
def dbW4 : DB :=
  { users := [], trainers := [], batches := [], enrollments := [], recordings := [],
    progresses := [], otps := [] }

/-- C4 witness: enrolling student 1 in batch 2 twice in the empty store
leaves exactly one row and reports AlreadyEnrolled the second time. -/
theorem enroll_idempotent_witness :
    enrollCount (enroll_student (enroll_student dbW4 1 2 0).2 1 2 1).2 1 2 = 1 ∧
    (enroll_student (enroll_student dbW4 1 2 0).2 1 2 1).1 =
      EnrollOutcome.alreadyEnrolled ∧
    (enroll_student (enroll_student dbW4 1 2 0).2 1 2 1).2 =
      (enroll_student dbW4 1 2 0).2 :=
  enroll_idempotent dbW4 1 2 0 1 (by decide)

/-- A store with a trainer account paired (by email) with a trainer profile. -/
def dbW9 : DB :=
  { users := [⟨1, "T", "t@old", generate_password_hash "pw1234", "trainer", 0⟩],
    trainers := [⟨1, "T", "t@old", "ml", none, none, none, none⟩],
    batches := [], enrollments := [], recordings := [], progresses := [], otps := [] }

/-- The trainer account of `dbW9`. -/
def userW9 : User := ⟨1, "T", "t@old", generate_password_hash "pw1234", "trainer", 0⟩

/-- C9 witness: at concrete inputs, changing the trainer account's email
leaves the trainer table unchanged while the account's email is updated. -/
theorem update_security_trainer_email_divergence_witness :
    (update_security dbW9 (some 1) "pw1234" none (some "t@new")).1 = SecurityOutcome.ok ∧
    (update_security dbW9 (some 1) "pw1234" none (some "t@new")).2.trainers = dbW9.trainers ∧
    ((update_security dbW9 (some 1) "pw1234" none (some "t@new")).2.users.find?
        (fun v => v.id == userW9.id)).map (fun v => v.email) = some "t@new" ∧
    (∀ t ∈ dbW9.trainers, t.email = userW9.email → t.email ≠ "t@new") :=
  update_security_trainer_email_divergence dbW9 (some 1) userW9 "pw1234" "t@new"
    (by decide) rfl (by decide) (by decide) (by decide)

end LMS
